import Mathlib

/-!
Verification of the F1 analytics extraction/loading pipeline
(`scripts/extract_data.py`, `scripts/data_quality.py`, `scripts/load_data.py`).

Shallow embedding: Python functions become Lean functions, the mutable
extractor object becomes explicit state passing, `os.replace`-based writes
become atomic state updates, and fallible operations return `Option` or
`Except`.  Python `float` delays are modelled as rationals, Python `int`
as `Int`/`Nat`.
-/

namespace F1

/-! ### Generic helpers

`sortedDedup` models Python `sorted(set(xs))`: the unique strictly sorted,
duplicate-free list with the same members as `xs`.  (Characterised below by
`sortedDedup_sorted`, `sortedDedup_nodup`, `mem_sortedDedup`.) -/

def insertSorted {α : Type} [LinearOrder α] (a : α) : List α → List α
  | [] => [a]
  | b :: t => if a < b then a :: b :: t else if a = b then b :: t else b :: insertSorted a t

def sortedDedup {α : Type} [LinearOrder α] (l : List α) : List α :=
  l.foldr insertSorted []

theorem mem_insertSorted {α : Type} [LinearOrder α] (a x : α) :
    ∀ l : List α, x ∈ insertSorted a l ↔ x = a ∨ x ∈ l := by
  intro l
  induction l with
  | nil => simp [insertSorted]
  | cons b t ih =>
      by_cases h1 : a < b
      · simp [insertSorted, h1]
      · by_cases h2 : a = b
        · subst h2
          rw [insertSorted, if_neg h1, if_pos rfl]
          constructor
          · exact Or.inr
          · rintro (rfl | h)
            · exact List.mem_cons_self _ _
            · exact h
        · simp [insertSorted, h1, h2, ih]
          tauto

theorem mem_sortedDedup {α : Type} [LinearOrder α] (x : α) :
    ∀ l : List α, x ∈ sortedDedup l ↔ x ∈ l := by
  intro l
  induction l with
  | nil => simp [sortedDedup]
  | cons a t ih =>
      simp [sortedDedup, List.foldr] at ih ⊢
      rw [mem_insertSorted, ih]

theorem insertSorted_sorted {α : Type} [LinearOrder α] (a : α) (l : List α)
    (h : l.Sorted (· < ·)) : (insertSorted a l).Sorted (· < ·) := by
  induction l with
  | nil => simp [insertSorted]
  | cons b t ih =>
      rw [List.sorted_cons] at h
      by_cases h1 : a < b
      · rw [insertSorted, if_pos h1, List.sorted_cons]
        refine ⟨?_, List.sorted_cons.mpr h⟩
        intro x hx
        rcases List.mem_cons.mp hx with rfl | hx
        · exact h1
        · exact lt_trans h1 (h.1 x hx)
      · by_cases h2 : a = b
        · rw [insertSorted, if_neg h1, if_pos h2]
          exact List.sorted_cons.mpr h
        · rw [insertSorted, if_neg h1, if_neg h2, List.sorted_cons]
          refine ⟨?_, ih h.2⟩
          intro x hx
          rcases (mem_insertSorted a x t).mp hx with rfl | hx
          · exact lt_of_le_of_ne (not_lt.mp h1) (Ne.symm h2)
          · exact h.1 x hx

theorem sortedDedup_sorted {α : Type} [LinearOrder α] (l : List α) :
    (sortedDedup l).Sorted (· < ·) := by
  induction l with
  | nil => simp [sortedDedup]
  | cons a t ih => exact insertSorted_sorted a _ ih

theorem sortedDedup_nodup {α : Type} [LinearOrder α] (l : List α) :
    (sortedDedup l).Nodup := by
  exact (sortedDedup_sorted l).imp (fun h => ne_of_lt h)

theorem insertSorted_of_lt_head {α : Type} [LinearOrder α] (a : α) :
    ∀ l : List α, (∀ x ∈ l, a < x) → insertSorted a l = a :: l := by
  intro l h
  cases l with
  | nil => rfl
  | cons b t => rw [insertSorted, if_pos (h b (List.mem_cons_self b t))]

theorem sortedDedup_of_sorted {α : Type} [LinearOrder α] :
    ∀ l : List α, l.Sorted (· < ·) → sortedDedup l = l := by
  intro l
  induction l with
  | nil => intro _; rfl
  | cons a t ih =>
      intro h
      rw [List.sorted_cons] at h
      show insertSorted a (sortedDedup t) = a :: t
      rw [ih h.2]
      exact insertSorted_of_lt_head a t h.1

theorem sortedDedup_idem {α : Type} [LinearOrder α] (l : List α) :
    sortedDedup (sortedDedup l) = sortedDedup l :=
  sortedDedup_of_sorted _ (sortedDedup_sorted l)

/-! Decimal digit lists, modelling Python's `str(n)` / `int(s)` on naturals.
`digitsAux` is fuel-driven so that all definitions evaluate by `decide`. -/

def digitsAux : ℕ → ℕ → List ℕ
  | 0, _ => []
  | fuel + 1, n => if n < 10 then [n] else digitsAux fuel (n / 10) ++ [n % 10]

/-- Most-significant-first decimal digits of `n` (the digits of `str(n)`). -/
def digitsOf (n : ℕ) : List ℕ := digitsAux (n + 1) n

theorem digitsAux_fuel : ∀ f f' n : ℕ, n < f → n < f' → digitsAux f n = digitsAux f' n := by
  intro f
  induction f with
  | zero => intro f' n h; omega
  | succ f ih =>
      intro f' n h h'
      cases f' with
      | zero => omega
      | succ f' =>
          by_cases h10 : n < 10
          · simp [digitsAux, h10]
          · have hd : n / 10 < n := Nat.div_lt_self (by omega) (by omega)
            simp only [digitsAux, if_neg h10]
            rw [ih f' (n / 10) (by omega) (by omega)]

theorem digitsOf_eq (n : ℕ) :
    digitsOf n = if n < 10 then [n] else digitsOf (n / 10) ++ [n % 10] := by
  by_cases h : n < 10
  · simp [digitsOf, digitsAux, h]
  · have hd : n / 10 < n := Nat.div_lt_self (by omega) (by omega)
    rw [if_neg h]
    have h1 : digitsOf n = digitsAux n (n / 10) ++ [n % 10] := by
      simp only [digitsOf, digitsAux, if_neg h]
    rw [h1]
    show digitsAux n (n / 10) ++ [n % 10] = digitsAux (n / 10 + 1) (n / 10) ++ [n % 10]
    rw [digitsAux_fuel n (n / 10 + 1) (n / 10) (by omega) (by omega)]

/-- Value of a most-significant-first digit list (the meaning of `int(s)` on a
digit string). -/
def natOfDigits (l : List ℕ) : ℕ := l.foldl (fun a d => 10 * a + d) 0

theorem foldl_digits_append (l : List ℕ) (d : ℕ) :
    ∀ a : ℕ, (l ++ [d]).foldl (fun a d => 10 * a + d) a =
      10 * l.foldl (fun a d => 10 * a + d) a + d := by
  induction l with
  | nil => intro a; rfl
  | cons x t ih => intro a; simp only [List.cons_append, List.foldl_cons]; exact ih _

theorem natOfDigits_digitsOf (n : ℕ) : natOfDigits (digitsOf n) = n := by
  induction n using Nat.strong_induction_on with
  | _ n ih =>
      rw [digitsOf_eq]
      by_cases h : n < 10
      · simp [h, natOfDigits]
      · have hd : n / 10 < n := Nat.div_lt_self (by omega) (by omega)
        rw [if_neg h]
        show natOfDigits (digitsOf (n / 10) ++ [n % 10]) = n
        unfold natOfDigits
        rw [foldl_digits_append]
        have := ih (n / 10) hd
        unfold natOfDigits at this
        rw [this]
        omega

theorem digitsOf_lt_ten (n : ℕ) : ∀ d ∈ digitsOf n, d < 10 := by
  induction n using Nat.strong_induction_on with
  | _ n ih =>
      rw [digitsOf_eq]
      by_cases h : n < 10
      · simp [h]
      · have hd : n / 10 < n := Nat.div_lt_self (by omega) (by omega)
        rw [if_neg h]
        intro d hdm
        rcases List.mem_append.mp hdm with hdm | hdm
        · exact ih (n / 10) hd d hdm
        · simp at hdm; omega

theorem digitsOf_injective : Function.Injective digitsOf := by
  intro m n h
  have := natOfDigits_digitsOf m
  rw [h, natOfDigits_digitsOf] at this
  omega

/-- A decimal digit as a character, as produced by Python string formatting. -/
def digitChar (d : ℕ) : Char := Char.ofNat (48 + d)

def charToDigit (c : Char) : ℕ := c.toNat - 48

/-- `str(n)` for a natural number. -/
def natToStr (n : ℕ) : String := String.mk ((digitsOf n).map digitChar)

theorem digitChar_inj : ∀ a : ℕ, a < 10 → ∀ b : ℕ, b < 10 → digitChar a = digitChar b → a = b := by
  decide

theorem charToDigit_digitChar : ∀ d : ℕ, d < 10 → charToDigit (digitChar d) = d := by
  decide

theorem map_digitChar_inj :
    ∀ l1 l2 : List ℕ, (∀ d ∈ l1, d < 10) → (∀ d ∈ l2, d < 10) →
      l1.map digitChar = l2.map digitChar → l1 = l2 := by
  intro l1
  induction l1 with
  | nil => intro l2 _ _ h; cases l2 <;> simp_all
  | cons a t ih =>
      intro l2 h1 h2 h
      cases l2 with
      | nil => simp at h
      | cons b t2 =>
          simp only [List.map_cons, List.cons.injEq] at h
          have ha : a = b := digitChar_inj a (h1 a (by simp)) b (h2 b (by simp)) h.1
          have ht : t = t2 := ih t2 (fun d hd => h1 d (by simp [hd]))
            (fun d hd => h2 d (by simp [hd])) h.2
          rw [ha, ht]

theorem natToStr_injective : Function.Injective natToStr := by
  intro m n h
  have hdata : (digitsOf m).map digitChar = (digitsOf n).map digitChar := by
    have := congrArg String.data h
    simpa [natToStr] using this
  exact digitsOf_injective
    (map_digitChar_inj _ _ (digitsOf_lt_ten m) (digitsOf_lt_ten n) hdata)

/-! Association-list helpers for Python dicts with `ℕ` keys. -/

def lookupD : List (ℕ × List ℕ) → ℕ → List ℕ
  | [], _ => []
  | (k', v) :: t, k => if k' = k then v else lookupD t k

def setA (m : List (ℕ × List ℕ)) (k : ℕ) (v : List ℕ) : List (ℕ × List ℕ) :=
  match m with
  | [] => [(k, v)]
  | (k', v') :: t => if k' = k then (k, v) :: t else (k', v') :: setA t k v

theorem lookupD_setA_self (k : ℕ) (v : List ℕ) :
    ∀ m : List (ℕ × List ℕ), lookupD (setA m k v) k = v := by
  intro m
  induction m with
  | nil => simp [setA, lookupD]
  | cons p t ih =>
      obtain ⟨k', v'⟩ := p
      by_cases h : k' = k
      · simp [setA, h, lookupD]
      · simp [setA, if_neg h, lookupD, h, ih]

theorem lookupD_setA_ne (k k' : ℕ) (v : List ℕ) (h : k' ≠ k) :
    ∀ m : List (ℕ × List ℕ), lookupD (setA m k v) k' = lookupD m k' := by
  intro m
  induction m with
  | nil => simp [setA, lookupD, Ne.symm h]
  | cons p t ih =>
      obtain ⟨k0, v0⟩ := p
      by_cases h0 : k0 = k
      · subst h0
        simp [setA, lookupD, Ne.symm h, h]
      · by_cases h1 : k0 = k'
        · subst h1; simp [setA, if_neg h0, lookupD]
        · simp [setA, if_neg h0, lookupD, h1, ih]

/-! ### Output persistence (`_write_csv_atomic` and the plain `to_csv` calls)

A file system state for one destination CSV: the destination file and its
`.tmp` sibling, each either absent (`none`) or holding a list of lines. -/

structure FileState where
  dest : Option (List String)
  tmp : Option (List String)
deriving DecidableEq

/-- All states the file system can be observed in while
`_write_csv_atomic(df, filename)` runs (including a crash at any point):
`df.to_csv(tmp_path)` writes the temporary sibling (a crash leaves any
prefix of the serialized lines in `tmp`, destination untouched), then
`os.replace(tmp_path, path)` atomically renames it over the destination. -/
def write_csv_atomic_states (lines : List String) (fs : FileState) : List FileState :=
  ((List.range (lines.length + 1)).map
    (fun k => { dest := fs.dest, tmp := some (lines.take k) }))
  ++ [{ dest := some lines, tmp := none }]

/-- All states while a plain `df.to_csv(path)` call runs: the destination is
opened for writing (truncated) and written front to back, so a crash leaves
any prefix of the new lines as the destination's contents. -/
def to_csv_direct_states (lines : List String) (fs : FileState) : List FileState :=
  (List.range (lines.length + 1)).map
    (fun k => { dest := some (lines.take k), tmp := fs.tmp })

/-- The nine extraction outputs. -/
inductive ExtractTarget
  | circuits | seasons | constructors | drivers | races | results | qualifying
  | pitStops | constructorStandings | driverStandings
deriving DecidableEq

/-- Which persist call each extractor makes for its output CSV, read off the
source: `extract_races`, `extract_results`, `extract_qualifying`,
`extract_pit_stops` and `extract_standings` call `self._write_csv_atomic(...)`;
`extract_circuits`, `extract_seasons`, `extract_constructors` and
`extract_drivers` call `df.to_csv(...)` on the destination directly. -/
def uses_write_csv_atomic : ExtractTarget → Bool
  | .races | .results | .qualifying | .pitStops
  | .constructorStandings | .driverStandings => true
  | .circuits | .seasons | .constructors | .drivers => false

/-- Observable file-system states while target `t`'s rows are persisted. -/
def persist_states (t : ExtractTarget) (lines : List String) (fs : FileState) :
    List FileState :=
  if uses_write_csv_atomic t then write_csv_atomic_states lines fs
  else to_csv_direct_states lines fs

/-! ### Rate-limited fetch client (`_make_request` / `_backoff`)

Delays are Python floats, modelled as rationals.  Only the state mutation is
modelled; the `time.sleep` calls and the random jitter (which affect the wait,
never `base_delay`) are omitted. -/

structure FetchParams where
  max_backoff : ℚ
  max_base_delay : ℚ

structure FetchState where
  base_delay : ℚ
  consecutive_rate_limits : ℕ

/-- State update of `_make_request` on an HTTP 429 response carrying no
`Retry-After` header: `_consecutive_rate_limits += 1`; if it reached 3,
`base_delay = min(base_delay * 1.5, max_base_delay)`; then `_backoff(attempt,
None)` sets `base_delay = min(base_delay * 1.25, max_base_delay)`. -/
def handle_429_no_hint (p : FetchParams) (s : FetchState) : FetchState :=
  let consec := s.consecutive_rate_limits + 1
  let b1 := if 3 ≤ consec then min (s.base_delay * 1.5) p.max_base_delay else s.base_delay
  { base_delay := min (b1 * 1.25) p.max_base_delay,
    consecutive_rate_limits := consec }

theorem handle_429_no_hint_step (p : FetchParams) (s : FetchState)
    (h0 : 0 ≤ s.base_delay) (h1 : s.base_delay ≤ p.max_base_delay) :
    s.base_delay ≤ (handle_429_no_hint p s).base_delay ∧
      (handle_429_no_hint p s).base_delay ≤ p.max_base_delay := by
  unfold handle_429_no_hint
  set b1 := if 3 ≤ s.consecutive_rate_limits + 1
    then min (s.base_delay * 1.5) p.max_base_delay else s.base_delay with hb1
  have hb1_ge : s.base_delay ≤ b1 := by
    rw [hb1]
    split
    · exact le_min (by nlinarith) h1
    · exact le_refl _
  have hb1_nonneg : 0 ≤ b1 := le_trans h0 hb1_ge
  constructor
  · exact le_min (le_trans hb1_ge (by nlinarith)) h1
  · exact min_le_right _ _

/-! ### Resumable results extraction (`extract_results` and its progress store)

Row records are opaque tokens.  The output CSV is modelled as an optional
file carrying a byte size and the data rows after the header; the byte size
written by `_write_csv_atomic` is abstracted as header bytes (at least 10)
plus one per row. -/

structure OutFile where
  size : ℕ
  dataRows : List ℕ
deriving DecidableEq

/-- `_output_file_empty`: destination missing or smaller than 10 bytes. -/
def output_file_empty (f : Option OutFile) : Bool :=
  match f with
  | none => true
  | some o => o.size < 10

/-- `_output_has_rows`: destination exists and has a data row after the header. -/
def output_has_rows (f : Option OutFile) : Bool :=
  match f with
  | none => false
  | some o => !o.dataRows.isEmpty

/-- `_count_rows`: number of lines minus the header (0 for a missing file). -/
def count_rows (f : Option OutFile) : ℕ :=
  match f with
  | none => 0
  | some o => o.dataRows.length

/-- In-memory progress dict: `years` (completed) and `skipped` round lists per
year.  Keys are the years (the `str(year)` dict keys of the source, identified
with the years themselves). -/
structure Progress where
  years : List (ℕ × List ℕ)
  skipped : List (ℕ × List ℕ)
deriving DecidableEq

def emptyProgress : Progress := { years := [], skipped := [] }

/-- Extractor state during `extract_results`: the in-memory `all_results`
accumulator, the in-memory progress dict, the progress file on disk (updated
atomically by `_save_progress` via `os.replace`), and the log of issued
`(year, round)` fetches. -/
structure ExtState where
  mem : List ℕ
  prog : Progress
  progressFile : Progress
  attempted : List (ℕ × ℕ)
deriving DecidableEq

/-- One loop iteration of `extract_results` for `round_num = r` of `year = y`.
`done` is the `done_rounds` set computed before the per-year loop.  `fetch y r`
is `none` when `_make_request` returned `None`, otherwise the `RaceTable`
races, each carrying its list of result rows.  The source saves progress
with `_save_progress` (normalize, then atomic replace) after every unit; the
progress kept here is already in normalized shape, so the save stores it
unchanged. -/
def process_round (fetch : ℕ → ℕ → Option (List (List ℕ))) (y : ℕ) (done : List ℕ)
    (r : ℕ) (s : ExtState) : ExtState :=
  if r ∈ done then s
  else
    let s := { s with attempted := s.attempted ++ [(y, r)] }
    match fetch y r with
    | none =>
        let p := { s.prog with
          skipped := setA s.prog.skipped y (sortedDedup (lookupD s.prog.skipped y ++ [r])) }
        { s with prog := p, progressFile := p }
    | some [] =>
        let p := { s.prog with
          skipped := setA s.prog.skipped y (sortedDedup (lookupD s.prog.skipped y ++ [r])) }
        { s with prog := p, progressFile := p }
    | some races =>
        let p := { s.prog with
          years := setA s.prog.years y (sortedDedup (lookupD s.prog.years y ++ [r])) }
        { s with mem := s.mem ++ races.flatten, prog := p, progressFile := p }

/-- The per-year loop of `extract_results`: `done_rounds` is computed once
from the current progress (union of completed and skipped), then each round
is processed in order. -/
def extract_year (fetch : ℕ → ℕ → Option (List (List ℕ))) (y : ℕ) (rounds : List ℕ)
    (s : ExtState) : ExtState :=
  let done := lookupD s.prog.years y ++ lookupD s.prog.skipped y
  rounds.foldl (fun st r => process_round fetch y done r st) s

/-- `rounds_by_year.get(year) or list(range(1, 25))`. -/
def rounds_for (roundsByYear : List (ℕ × List ℕ)) (y : ℕ) : List ℕ :=
  let rs := lookupD roundsByYear y
  if rs = [] then List.range' 1 24 else rs

/-- `range(start_year, end_year + 1)`. -/
def year_list (startY endY : ℕ) : List ℕ := List.range' startY (endY + 1 - startY)

/-- `sum(len(rounds_by_year.get(y) or []) for y in range(start_year, end_year+1))`. -/
def races_count (roundsByYear : List (ℕ × List ℕ)) (startY endY : ℕ) : ℕ :=
  ((year_list startY endY).map (fun y => (lookupD roundsByYear y).length)).sum

/-- The health check of `extract_results` lines 376-388: if the output CSV is
empty/missing or has no data row, or looks implausibly small for the known
race count, the loaded progress is discarded and replaced by empty progress. -/
def reset_progress (outFile : Option OutFile) (racesCount : ℕ) (loaded : Progress) :
    Progress :=
  if output_file_empty outFile || !output_has_rows outFile then emptyProgress
  else if racesCount ≠ 0 && count_rows outFile < racesCount * 10 then emptyProgress
  else loaded

/-- A complete, uninterrupted `extract_results(start_year, end_year)` call:
load progress (`loaded`), apply the health check, walk every year and round,
and finally persist `all_results` with `_write_csv_atomic`. -/
def run_extract_results (fetch : ℕ → ℕ → Option (List (List ℕ))) (startY endY : ℕ)
    (roundsByYear : List (ℕ × List ℕ)) (loaded : Progress) (outFile : Option OutFile) :
    ExtState × Option OutFile :=
  let p0 := reset_progress outFile (races_count roundsByYear startY endY) loaded
  let s0 : ExtState := { mem := [], prog := p0, progressFile := loaded, attempted := [] }
  let s1 := (year_list startY endY).foldl
    (fun st y => extract_year fetch y (rounds_for roundsByYear y) st) s0
  (s1, some { size := 10 + s1.mem.length, dataRows := s1.mem })

/-- An `extract_results` call killed externally after completing `kn` rounds of
the `ky`-th year of the range (counting from 0): all earlier years ran fully,
no later unit ran, and the final `_write_csv_atomic` never happened, so the
output CSV on disk is unchanged.  Progress saves are atomic (`os.replace`), so
the progress file holds exactly the last completed save. -/
def run_killed (fetch : ℕ → ℕ → Option (List (List ℕ))) (startY endY : ℕ)
    (roundsByYear : List (ℕ × List ℕ)) (loaded : Progress) (outFile : Option OutFile)
    (ky kn : ℕ) : ExtState × Option OutFile :=
  let p0 := reset_progress outFile (races_count roundsByYear startY endY) loaded
  let s0 : ExtState := { mem := [], prog := p0, progressFile := loaded, attempted := [] }
  let years := year_list startY endY
  let s1 := (years.take ky).foldl
    (fun st y => extract_year fetch y (rounds_for roundsByYear y) st) s0
  let s2 := match years.drop ky with
    | [] => s1
    | y :: _ => extract_year fetch y ((rounds_for roundsByYear y).take kn) s1
  (s2, outFile)

/-- The `(year, round)` units a run over this configuration walks. -/
def schedule (startY endY : ℕ) (roundsByYear : List (ℕ × List ℕ)) : List (ℕ × ℕ) :=
  ((year_list startY endY).map
    (fun y => (rounds_for roundsByYear y).map (fun r => (y, r)))).flatten

/-- The result rows a unit contributes (all rows of all races of the payload). -/
def rows_of (fetch : ℕ → ℕ → Option (List (List ℕ))) (y r : ℕ) : List ℕ :=
  match fetch y r with
  | none => []
  | some races => races.flatten

/-- All rows an uninterrupted run over this configuration extracts. -/
def schedule_rows (fetch : ℕ → ℕ → Option (List (List ℕ))) (startY endY : ℕ)
    (roundsByYear : List (ℕ × List ℕ)) : List ℕ :=
  ((year_list startY endY).map
    (fun y => ((rounds_for roundsByYear y).map (rows_of fetch y)).flatten)).flatten

/-! ### Incremental loader (`_load_table_incremental`, SQLite branch)

A table row is `(key, payload)` where the key is the table's declared
primary key column. -/

structure SqlDB where
  target : List (Int × Int)
  staging : Option (List (Int × Int))
deriving DecidableEq

/-- One row of SQLite `INSERT OR REPLACE`: the conflicting row with the same
primary key is deleted and the new row inserted. -/
def insert_or_replace_row (t : List (Int × Int)) (r : Int × Int) : List (Int × Int) :=
  t.filter (fun x => x.1 != r.1) ++ [r]

/-- `_load_table_incremental(df, table_name)` (SQLite branch):
`df.to_sql(staging, if_exists="replace")`, then
`INSERT OR REPLACE INTO table ... SELECT ... FROM staging`, then
`DROP TABLE IF EXISTS staging`. -/
def load_table_incremental (db : SqlDB) (rows : List (Int × Int)) : SqlDB :=
  let staged := rows
  let tgt := staged.foldl insert_or_replace_row db.target
  { target := tgt, staging := none }

/-! ### Quality gate (`data_quality.py`)

The database connection is abstracted as the results of the queries
`run_quality_checks` issues: a scalar per battery query, plus the three
aggregate queries.  `Except.error` models a query raising. -/

structure CheckDef where
  name : String
  query : String
  expected_zero : Bool
deriving DecidableEq

/-- The 17 `add_check` battery entries, in source order (SQL whitespace
normalized to one line). -/
def battery_checks : List CheckDef :=
  [ ⟨"results_non_empty", "SELECT COUNT(*) AS value FROM results", false⟩,
    ⟨"drivers_non_empty", "SELECT COUNT(*) AS value FROM drivers", false⟩,
    ⟨"races_non_empty", "SELECT COUNT(*) AS value FROM races", false⟩,
    ⟨"races_outside_year_range",
      "SELECT COUNT(*) AS value FROM races WHERE year < :start_year OR year > :end_year", true⟩,
    ⟨"drivers_unique", "SELECT COUNT(*) - COUNT(DISTINCT driver_id) AS value FROM drivers", true⟩,
    ⟨"constructors_unique",
      "SELECT COUNT(*) - COUNT(DISTINCT constructor_id) AS value FROM constructors", true⟩,
    ⟨"circuits_unique", "SELECT COUNT(*) - COUNT(DISTINCT circuit_id) AS value FROM circuits", true⟩,
    ⟨"races_unique", "SELECT COUNT(*) - COUNT(DISTINCT race_id) AS value FROM races", true⟩,
    ⟨"results_race_fk",
      "SELECT COUNT(*) AS value FROM results r LEFT JOIN races ra ON r.race_id = ra.race_id WHERE ra.race_id IS NULL", true⟩,
    ⟨"results_driver_fk",
      "SELECT COUNT(*) AS value FROM results r LEFT JOIN drivers d ON r.driver_id = d.driver_id WHERE d.driver_id IS NULL", true⟩,
    ⟨"results_constructor_fk",
      "SELECT COUNT(*) AS value FROM results r LEFT JOIN constructors c ON r.constructor_id = c.constructor_id WHERE c.constructor_id IS NULL", true⟩,
    ⟨"qualifying_race_fk",
      "SELECT COUNT(*) AS value FROM qualifying q LEFT JOIN races ra ON q.race_id = ra.race_id WHERE ra.race_id IS NULL", true⟩,
    ⟨"pit_stops_race_fk",
      "SELECT COUNT(*) AS value FROM pit_stops p LEFT JOIN races ra ON p.race_id = ra.race_id WHERE ra.race_id IS NULL", true⟩,
    ⟨"results_points_non_negative", "SELECT COUNT(*) AS value FROM results WHERE points < 0", true⟩,
    ⟨"results_laps_non_negative", "SELECT COUNT(*) AS value FROM results WHERE laps < 0", true⟩,
    ⟨"results_grid_non_negative", "SELECT COUNT(*) AS value FROM results WHERE grid < 0", true⟩,
    ⟨"results_position_order_non_negative",
      "SELECT COUNT(*) AS value FROM results WHERE position_order < 0", true⟩ ]

/-- A quality failure entry `{check, value, expected}`. -/
structure Failure where
  check : String
  value : String
  expected : String
deriving DecidableEq

/-- Query results of the loaded store, as consumed by `run_quality_checks`:
`scalar q` is the single value of battery query `q` (`fetchone()` returning no
row is already folded into the value, as in the source's `result[0] if result
else 0`); the other three fields are the aggregate query results (distinct
years in range; `(year, round)` of races lacking results / qualifying). -/
structure QGConn where
  scalar : String → Except String Int
  distinctYears : Except String (List Int)
  missingResults : Except String (List (Int × Int))
  missingQualifying : Except String (List (Int × Int))

/-- The battery loop of `run_quality_checks` (lines 146-166): each check's
query runs with no surrounding `try`, so a raising query propagates out. -/
def run_battery (scalar : String → Except String Int) : Except String (List Failure) :=
  battery_checks.foldlM
    (fun acc ck => do
      let v ← scalar ck.query
      if ck.expected_zero then
        if v ≠ 0 then pure (acc ++ [⟨ck.name, toString v, "0"⟩]) else pure acc
      else
        if v = 0 then pure (acc ++ [⟨ck.name, toString v, "> 0"⟩]) else pure acc)
    []

/-- `int(year)` on a dict key, for the keys arising in progress files:
canonical decimal representations (an optional minus sign followed by
digits).  Python's `int` also strips whitespace and underscores; such keys
never occur here and parse to `none` conservatively. -/
def py_int_of_str (s : String) : Option Int :=
  match s.data with
  | [] => none
  | '-' :: rest =>
      if rest ≠ [] ∧ rest.all (fun c => 48 ≤ c.toNat ∧ c.toNat ≤ 57) then
        some (-(natOfDigits (rest.map charToDigit) : Int))
      else none
  | l =>
      if l.all (fun c => 48 ≤ c.toNat ∧ c.toNat ≤ 57) then
        some ((natOfDigits (l.map charToDigit) : Int))
      else none

/-- `_as_round_set(skipped)`: flatten a `{year_str: [round, ...]}` mapping into
the set of `(year, round)` pairs, dropping entries whose year key does not
parse as an int (`None` maps to the empty set). -/
def as_round_set (skipped : Option (List (String × List Int))) : List (Int × Int) :=
  match skipped with
  | none => []
  | some m =>
      m.foldr
        (fun kv acc =>
          match py_int_of_str kv.1 with
          | none => acc
          | some y => kv.2.map (fun r => (y, r)) ++ acc)
        []

/-- `missing_results_filtered` (lines 208-210): drop from the missing-results
race list every `(year, round)` present in the skipped set for `results`. -/
def missing_results_filtered (rows : List (Int × Int))
    (skipped : Option (List (String × List Int))) : List (Int × Int) :=
  rows.filter (fun p => !(as_round_set skipped).contains p)

/-- `missing_qualifying_filtered` (lines 242-244): the same filtering for the
qualifying skipped set. -/
def missing_qualifying_filtered (rows : List (Int × Int))
    (skipped : Option (List (String × List Int))) : List (Int × Int) :=
  rows.filter (fun p => !(as_round_set skipped).contains p)

/-- The `missing_race_years` block: on success report the years of the range
absent from the store (aggregated into one failure), on a raise record a
`query_success` failure instead of propagating. -/
def missing_years_failures (distinctYears : Except String (List Int)) (startY endY : Int) :
    List Failure :=
  match distinctYears with
  | .error e => [⟨"missing_race_years", "error: " ++ e, "query_success"⟩]
  | .ok ys =>
      let missing := ((List.range' 0 ((endY - startY + 1).toNat)).map (fun i => startY + i)).filter
        (fun y => !ys.contains y)
      if missing ≠ [] then
        [⟨"missing_race_years", String.intercalate ", " (missing.map toString),
          "All years " ++ toString startY ++ "-" ++ toString endY⟩]
      else []

/-- The `races_missing_results` block: skipped rounds are excluded before
counting; a raise is recorded as a failure. -/
def missing_results_failures (missingResults : Except String (List (Int × Int)))
    (skipped : Option (List (String × List Int))) : List Failure :=
  match missingResults with
  | .error e => [⟨"races_missing_results", "error: " ++ e, "query_success"⟩]
  | .ok rows =>
      let filtered := missing_results_filtered rows skipped
      if filtered.length ≠ 0 then
        [⟨"races_missing_results", toString filtered.length, "0"⟩]
      else []

/-- The `races_missing_qualifying` block, analogously. -/
def missing_qualifying_failures (missingQualifying : Except String (List (Int × Int)))
    (skipped : Option (List (String × List Int))) : List Failure :=
  match missingQualifying with
  | .error e => [⟨"races_missing_qualifying", "error: " ++ e, "query_success"⟩]
  | .ok rows =>
      let filtered := missing_qualifying_filtered rows skipped
      if filtered.length ≠ 0 then
        [⟨"races_missing_qualifying", toString filtered.length, "0"⟩]
      else []

/-- `run_quality_checks(engine, start_year, end_year, skipped_rounds)`: run the
battery (uncaught), then the three aggregate checks (each in its own
`try`/`except`), and return all failures.  `skippedRounds` is the optional
`{"results": {...}, "qualifying": {...}}` map; `(skipped_rounds or
{}).get(target)` becomes a lookup defaulting to `none`. -/
def run_quality_checks (conn : QGConn) (startY endY : Int)
    (skippedRounds : Option (List (String × List (String × List Int)))) :
    Except String (List Failure) := do
  let base ← run_battery conn.scalar
  let skippedOf := fun (target : String) =>
    ((skippedRounds.getD []).find? (fun kv => kv.1 == target)).map (fun kv => kv.2)
  pure (base
    ++ missing_years_failures conn.distinctYears startY endY
    ++ missing_results_failures conn.missingResults (skippedOf "results")
    ++ missing_qualifying_failures conn.missingQualifying (skippedOf "qualifying"))

/-! ### Progress normalization (`_normalize_progress` / `_save_progress`)

`PyVal` models the JSON/Python values a progress file can hold.  Dicts are
association lists with string keys (first binding wins, as in a dict). -/

inductive PyVal
  | int (n : Int)
  | str (s : String)
  | list (xs : List PyVal)
  | dict (xs : List (String × PyVal))
  | none

/-- `d.get(k)`. -/
def pyGet (xs : List (String × PyVal)) (k : String) : Option PyVal :=
  (xs.find? (fun p => p.1 == k)).map (fun p => p.2)

/-- `value.isdigit()` for a string. -/
def strIsDigit (s : String) : Bool :=
  !s.data.isEmpty && s.data.all (fun c => 48 ≤ c.toNat && c.toNat ≤ 57)

/-- The round-cleaning loop of `_normalize_progress`: keep ints, coerce digit
strings, drop anything else; a non-list value yields the empty list. -/
def cleanRounds : PyVal → List Int
  | .list xs =>
      xs.foldr
        (fun v acc =>
          match v with
          | .int n => n :: acc
          | .str s => if strIsDigit s then ((natOfDigits (s.data.map charToDigit) : Int) :: acc) else acc
          | _ => acc)
        []
  | _ => []

/-- The `data_years` selection of `_normalize_progress`: the `"years"` value
when it is a dict, else the whole input when that is a dict, else empty. -/
def data_years_of (data : PyVal) : List (String × PyVal) :=
  match data with
  | .dict d =>
      match pyGet d "years" with
      | some (.dict dy) => dy
      | _ => d
  | _ => []

/-- The `data_skipped` selection of `_normalize_progress`. -/
def data_skipped_of (data : PyVal) : List (String × PyVal) :=
  match data with
  | .dict d =>
      match pyGet d "skipped" with
      | some (.dict ds) => ds
      | _ => []
  | _ => []

/-- One normalized year entry: `str(year)` mapped to
`sorted(set(cleaned rounds))` of the source mapping's value for that year
(default `[]`). -/
def norm_entry (src : List (String × PyVal)) (y : ℕ) : String × PyVal :=
  (natToStr y,
    PyVal.list ((sortedDedup (cleanRounds ((pyGet src (natToStr y)).getD (.list [])))).map PyVal.int))

/-- `_normalize_progress(data, start_year, end_year)`: coerce arbitrary input
into `{"years": {str(y): sorted set of ints}, "skipped": ...}` with exactly
the years of the requested range as keys. -/
def normalize_progress (data : PyVal) (startY endY : ℕ) : PyVal :=
  PyVal.dict
    [("years", .dict ((year_list startY endY).map (norm_entry (data_years_of data)))),
     ("skipped", .dict ((year_list startY endY).map (norm_entry (data_skipped_of data))))]

/-- The two mappings `_save_progress` persists: it normalizes its input and
writes `{"version": 1, "updated_at": ..., "years": ..., "skipped": ...}` to a
temp file, then atomically replaces the progress path.  Only the two
normalized mappings are modelled (version/timestamp are constants). -/
def save_progress_payload (data : PyVal) (startY endY : ℕ) : PyVal :=
  normalize_progress data startY endY

/-- Read back one persisted round list from a saved payload (the `key`
mapping's entry for year `y`, its integer members). -/
def payload_rounds (p : PyVal) (key : String) (y : ℕ) : List Int :=
  match p with
  | .dict d =>
      match pyGet d key with
      | some (.dict m) => cleanRounds ((pyGet m (natToStr y)).getD (.list []))
      | _ => []
  | _ => []

/-! ### `race_id` construction (`int(f"{year}{round:02d}")`)

The f-string concatenates `str(year)` with the round formatted `%02d`
(zero-padded to at least two digits); `int(...)` parses the result. -/

/-- `int(s)` for an all-digit string produced by the f-string. -/
def strToNat (s : String) : ℕ :=
  s.data.foldl (fun a c => 10 * a + charToDigit c) 0

/-- `f"{r:02d}"`. -/
def pad2Str (r : ℕ) : String :=
  if r < 10 then String.mk [digitChar 0] ++ natToStr r else natToStr r

/-- `race_id` as computed in `extract_races` (line 353). -/
def race_id_races (year round : ℕ) : ℕ := strToNat (natToStr year ++ pad2Str round)

/-- `race_id` as computed in `extract_results` (line 417). -/
def race_id_results (year round : ℕ) : ℕ := strToNat (natToStr year ++ pad2Str round)

/-- `race_id` as computed in `extract_qualifying` (line 509); `extract_pit_stops`
(line 672) and `extract_standings` (lines 758, 793) repeat the same expression. -/
def race_id_qualifying (year round : ℕ) : ℕ := strToNat (natToStr year ++ pad2Str round)

/-! ### Helper lemmas about digit strings -/

theorem foldl_charToDigit_digitChar :
    ∀ l : List ℕ, (∀ d ∈ l, d < 10) → ∀ a : ℕ,
      (l.map digitChar).foldl (fun a c => 10 * a + charToDigit c) a =
        l.foldl (fun a d => 10 * a + d) a := by
  intro l
  induction l with
  | nil => intro _ a; rfl
  | cons d t ih =>
      intro h a
      simp only [List.map_cons, List.foldl_cons]
      rw [charToDigit_digitChar d (h d (by simp))]
      exact ih (fun x hx => h x (by simp [hx])) _

theorem strToNat_mk_digits (l : List ℕ) (h : ∀ d ∈ l, d < 10) :
    strToNat (String.mk (l.map digitChar)) = natOfDigits l := by
  show (l.map digitChar).foldl (fun a c => 10 * a + charToDigit c) 0 =
    l.foldl (fun a d => 10 * a + d) 0
  exact foldl_charToDigit_digitChar l h 0

/-- The digit list underlying `f"{r:02d}"`. -/
def pad2digits (r : ℕ) : List ℕ := if r < 10 then [0, r] else digitsOf r

theorem pad2Str_eq (r : ℕ) : pad2Str r = String.mk ((pad2digits r).map digitChar) := by
  unfold pad2Str pad2digits
  by_cases h : r < 10
  · rw [if_pos h, if_pos h]
    have : digitsOf r = [r] := by rw [digitsOf_eq, if_pos h]
    show String.mk [digitChar 0] ++ String.mk ((digitsOf r).map digitChar) = _
    rw [this]
    rfl
  · rw [if_neg h, if_neg h]
    rfl

theorem pad2digits_lt_ten (r : ℕ) : ∀ d ∈ pad2digits r, d < 10 := by
  unfold pad2digits
  by_cases h : r < 10
  · rw [if_pos h]; intro d hd; simp at hd; omega
  · rw [if_neg h]; exact digitsOf_lt_ten r

theorem mk_append_mk (a b : List Char) :
    String.mk a ++ String.mk b = String.mk (a ++ b) := rfl

theorem race_id_eq (y r : ℕ) (hr : r ≤ 99) :
    strToNat (natToStr y ++ pad2Str r) = 100 * y + r := by
  rw [pad2Str_eq, natToStr, mk_append_mk, ← List.map_append]
  rw [strToNat_mk_digits _ (by
    intro d hd
    rcases List.mem_append.mp hd with hd | hd
    · exact digitsOf_lt_ten y d hd
    · exact pad2digits_lt_ten r d hd)]
  unfold natOfDigits
  rw [List.foldl_append]
  have hy : (digitsOf y).foldl (fun a d => 10 * a + d) 0 = y := natOfDigits_digitsOf y
  rw [hy]
  unfold pad2digits
  by_cases h : r < 10
  · rw [if_pos h]
    show 10 * (10 * y + 0) + r = 100 * y + r
    ring
  · have h2 : digitsOf r = [r / 10, r % 10] := by
      rw [digitsOf_eq, if_neg h]
      have : digitsOf (r / 10) = [r / 10] := by
        rw [digitsOf_eq, if_pos (by omega)]
      rw [this]
      rfl
    rw [if_neg h, h2]
    show 10 * (10 * y + r / 10) + r % 10 = 100 * y + r
    omega

/-! ### Claim theorems -/

/-- C1, as stated (refuted below): every extraction output would be persisted
through the temp-and-rename path, so any observable destination state is the
complete prior contents or the complete new contents.  `extract_circuits`
writes its destination directly with `df.to_csv`, so a crash mid-write leaves
a partial file: with new contents `["h", "r1", "r2"]` over a prior healthy
file `["h", "old"]`, the state with only `["h"]` written is observable and is
neither version. -/
theorem c1_counterexample :
    (({ dest := some ["h"], tmp := none } : FileState) ∈
      persist_states ExtractTarget.circuits ["h", "r1", "r2"]
        { dest := some ["h", "old"], tmp := none }) ∧
    ¬((some ["h"] : Option (List String)) = some ["h", "old"] ∨
      (some ["h"] : Option (List String)) = some ["h", "r1", "r2"]) := by
  decide

/-- C1, amended: persists that go through `_write_csv_atomic` (races, results,
qualifying, pit stops, constructor and driver standings) expose the
destination only as the complete prior version or the complete new version;
circuits, seasons, constructors and drivers are written directly with
`to_csv` and are not covered. -/
theorem atomic_targets_old_or_new (t : ExtractTarget)
    (h : uses_write_csv_atomic t = true) (lines : List String) (fs s : FileState)
    (hs : s ∈ persist_states t lines fs) :
    s.dest = fs.dest ∨ s.dest = some lines := by
  unfold persist_states at hs
  rw [h, if_pos rfl] at hs
  unfold write_csv_atomic_states at hs
  rcases List.mem_append.mp hs with hm | hm
  · obtain ⟨k, _, hk⟩ := List.mem_map.mp hm
    left; rw [← hk]
  · simp at hm
    right; rw [hm]

theorem atomic_targets_old_or_new_witness :
    uses_write_csv_atomic ExtractTarget.races = true ∧
    (({ dest := some ["h", "r1"], tmp := none } : FileState) ∈
      persist_states ExtractTarget.races ["h", "r1"] { dest := none, tmp := none }) ∧
    ((({ dest := some ["h", "r1"], tmp := none } : FileState).dest = none ∨
      (({ dest := some ["h", "r1"], tmp := none } : FileState)).dest = some ["h", "r1"])) :=
  ⟨by decide, by decide,
    atomic_targets_old_or_new ExtractTarget.races (by decide) ["h", "r1"]
      { dest := none, tmp := none } { dest := some ["h", "r1"], tmp := none } (by decide)⟩

/-- Iterated handling of consecutive 429 responses with no Retry-After. -/
def iterate_429 (p : FetchParams) (s : FetchState) : ℕ → FetchState
  | 0 => s
  | n + 1 => handle_429_no_hint p (iterate_429 p s n)

theorem iterate_429_invariant (p : FetchParams) (s : FetchState)
    (h0 : 0 ≤ s.base_delay) (h1 : s.base_delay ≤ p.max_base_delay) (n : ℕ) :
    0 ≤ (iterate_429 p s n).base_delay ∧
      (iterate_429 p s n).base_delay ≤ p.max_base_delay := by
  induction n with
  | zero => exact ⟨h0, h1⟩
  | succ n ih =>
      have step := handle_429_no_hint_step p (iterate_429 p s n) ih.1 ih.2
      exact ⟨le_trans ih.1 step.1, step.2⟩

/-- C3: along any sequence of consecutive 429 responses with no Retry-After
hint, starting from a client state whose `base_delay` is nonnegative and
within `max_base_delay` (as constructed: 1.5 and 8.0), `base_delay` after
each response is ≥ its value before that response, and after every response
it is ≤ `max_base_delay`. -/
theorem base_delay_monotone_bounded (p : FetchParams) (s : FetchState)
    (h0 : 0 ≤ s.base_delay) (h1 : s.base_delay ≤ p.max_base_delay) (n : ℕ) :
    (iterate_429 p s n).base_delay ≤ (iterate_429 p s (n + 1)).base_delay ∧
      (iterate_429 p s (n + 1)).base_delay ≤ p.max_base_delay := by
  have inv := iterate_429_invariant p s h0 h1 n
  have step := handle_429_no_hint_step p (iterate_429 p s n) inv.1 inv.2
  exact ⟨step.1, step.2⟩

theorem base_delay_monotone_bounded_witness :
    (0 ≤ (1.5 : ℚ) ∧ (1.5 : ℚ) ≤ 8) ∧
    ((iterate_429 ⟨20, 8⟩ ⟨1.5, 0⟩ 0).base_delay ≤ (iterate_429 ⟨20, 8⟩ ⟨1.5, 0⟩ 1).base_delay ∧
      (iterate_429 ⟨20, 8⟩ ⟨1.5, 0⟩ 1).base_delay ≤ (8 : ℚ)) :=
  ⟨⟨by norm_num, by norm_num⟩,
    base_delay_monotone_bounded ⟨20, 8⟩ ⟨1.5, 0⟩ (by norm_num) (by norm_num) 0⟩

theorem filter_key_of_filter_ne (k : Int) :
    ∀ l : List (Int × Int),
      (l.filter (fun x => x.1 != k)).filter (fun r => r.1 == k) = [] := by
  intro l
  induction l with
  | nil => rfl
  | cons a t ih =>
      by_cases h : a.1 = k <;> simp [List.filter_cons, h, ih]

/-- C8: in incremental mode, loading a row with key `k` and then loading a row
with the same key and different values leaves exactly one row with that key
in the target table, carrying the later values, and the staging table is
dropped. -/
theorem incremental_upsert_last_write_wins (db : SqlDB) (k v₁ v₂ : Int) :
    ((load_table_incremental (load_table_incremental db [(k, v₁)]) [(k, v₂)]).target.filter
        (fun r => r.1 == k) = [(k, v₂)]) ∧
    (load_table_incremental (load_table_incremental db [(k, v₁)]) [(k, v₂)]).staging = none := by
  constructor
  · show (insert_or_replace_row (insert_or_replace_row db.target (k, v₁)) (k, v₂)).filter
        (fun r => r.1 == k) = [(k, v₂)]
    conv_lhs => rw [insert_or_replace_row]
    rw [List.filter_append, filter_key_of_filter_ne]
    simp
  · rfl

/-- C9: for every race-scoped record built for year `y ≥ 1` and round
`r ≤ 99`, the computed `race_id = int(f"{year}{round:02d}")` equals
`100*y + r`, the same `(year, round)` yields the same `race_id` in every
extractor, and `race_id` is injective over such `(year, round)` pairs. -/
theorem race_id_concatenation_injective (y r y' r' : ℕ)
    (hy : 1 ≤ y) (hr : r ≤ 99) (hy' : 1 ≤ y') (hr' : r' ≤ 99) :
    race_id_races y r = 100 * y + r ∧
    race_id_results y r = race_id_races y r ∧
    race_id_qualifying y r = race_id_races y r ∧
    (race_id_races y r = race_id_races y' r' → y = y' ∧ r = r') := by
  have h1 : race_id_races y r = 100 * y + r := race_id_eq y r hr
  have h2 : race_id_races y' r' = 100 * y' + r' := race_id_eq y' r' hr'
  refine ⟨h1, rfl, rfl, ?_⟩
  intro he
  rw [h1, h2] at he
  omega

theorem race_id_concatenation_injective_witness :
    (1 ≤ 2024 ∧ 1 ≤ 99 ∧ 1 ≤ 2024 ∧ 2 ≤ 99) ∧
    (race_id_races 2024 1 = 100 * 2024 + 1 ∧
      race_id_results 2024 1 = race_id_races 2024 1 ∧
      race_id_qualifying 2024 1 = race_id_races 2024 1 ∧
      (race_id_races 2024 1 = race_id_races 2024 2 → 2024 = 2024 ∧ 1 = 2)) :=
  ⟨by omega,
    race_id_concatenation_injective 2024 1 2024 2 (by omega) (by omega) (by omega) (by omega)⟩

theorem mem_as_round_set (m : List (String × List Int)) (k : String) (rs : List Int)
    (y r : Int) (hm : (k, rs) ∈ m) (hr : r ∈ rs) (hk : py_int_of_str k = some y) :
    (y, r) ∈ as_round_set (some m) := by
  induction m with
  | nil => cases hm
  | cons kv t ih =>
      show (y, r) ∈ (match py_int_of_str kv.1 with
        | none => as_round_set (some t)
        | some y0 => kv.2.map (fun r0 => (y0, r0)) ++ as_round_set (some t))
      rcases List.mem_cons.mp hm with rfl | hm'
      · rw [hk]
        exact List.mem_append.mpr (Or.inl (List.mem_map.mpr ⟨r, hr, rfl⟩))
      · have hin : (y, r) ∈ as_round_set (some t) := ih hm'
        cases hky : py_int_of_str kv.1 with
        | none => exact hin
        | some y0 => exact List.mem_append.mpr (Or.inr hin)

/-- C5: a `(year, round)` pair present in the skipped map handed to the
quality gate (a key parsing to `year`, its list containing `round`) is never
in the filtered missing-results list nor in the filtered missing-qualifying
list, whatever races the aggregate queries report as missing — so it never
contributes to the `races_missing_results` / `races_missing_qualifying`
failures. -/
theorem skipped_round_never_in_missing_failures
    (resultRows qualRows : List (Int × Int)) (skp : List (String × List Int))
    (k : String) (rs : List Int) (y r : Int)
    (hm : (k, rs) ∈ skp) (hr : r ∈ rs) (hk : py_int_of_str k = some y) :
    (y, r) ∉ missing_results_filtered resultRows (some skp) ∧
    (y, r) ∉ missing_qualifying_filtered qualRows (some skp) := by
  have hmem := mem_as_round_set skp k rs y r hm hr hk
  constructor <;>
  · intro hc
    have h2 := (List.mem_filter.mp hc).2
    rw [Bool.not_eq_true'] at h2
    have h3 : (as_round_set (some skp)).contains (y, r) = true :=
      List.elem_eq_true_of_mem hmem
    rw [h3] at h2
    cases h2

theorem skipped_round_never_in_missing_failures_witness :
    (("2024", [3]) ∈ [("2024", ([3] : List Int))] ∧ (3 : Int) ∈ [(3 : Int)] ∧
      py_int_of_str "2024" = some 2024) ∧
    ((2024, 3) ∉ missing_results_filtered [((2024 : Int), (3 : Int))] (some [("2024", [3])]) ∧
      (2024, 3) ∉ missing_qualifying_filtered [((2024 : Int), (3 : Int))] (some [("2024", [3])])) :=
  ⟨⟨by decide, by decide, by decide⟩,
    skipped_round_never_in_missing_failures [(2024, 3)] [(2024, 3)] [("2024", [3])]
      "2024" [3] 2024 3 (by decide) (by decide) (by decide)⟩

/-- A store whose scalar battery queries all raise. -/
def bad_conn : QGConn where
  scalar := fun _ => .error "db failure"
  distinctYears := .ok []
  missingResults := .ok []
  missingQualifying := .ok []

/-- C7, as stated (refuted): a raising check query would be recorded as a
failure and the remaining checks would still run.  The 17 battery checks run
with no surrounding `try`/`except` (only the three aggregate checks have
one), so when the very first battery query raises, `run_quality_checks`
propagates the exception and returns no failure list at all. -/
theorem c7_counterexample :
    run_quality_checks bad_conn 2024 2024 none = Except.error "db failure" ∧
    ∀ fs : List Failure, run_quality_checks bad_conn 2024 2024 none ≠ Except.ok fs := by
  constructor
  · rfl
  · intro fs h
    rw [show run_quality_checks bad_conn 2024 2024 none = Except.error "db failure" from rfl] at h
    exact Except.noConfusion h

/-- C7, amended: when the battery of scalar checks completes (its failures
being `base`), `run_quality_checks` returns a failure list; each of the three
aggregate checks (`missing_race_years`, `races_missing_results`,
`races_missing_qualifying`) that raises is recorded in it as a
`query_success` failure without aborting the others.  An exception inside the
scalar battery itself propagates instead (see the counterexample). -/
theorem aggregate_check_errors_recorded (conn : QGConn) (startY endY : Int)
    (skp : Option (List (String × List (String × List Int)))) (base : List Failure)
    (h : run_battery conn.scalar = .ok base) :
    (run_quality_checks conn startY endY skp = .ok (base
      ++ missing_years_failures conn.distinctYears startY endY
      ++ missing_results_failures conn.missingResults
          (((skp.getD []).find? (fun kv => kv.1 == "results")).map (fun kv => kv.2))
      ++ missing_qualifying_failures conn.missingQualifying
          (((skp.getD []).find? (fun kv => kv.1 == "qualifying")).map (fun kv => kv.2)))) ∧
    (∀ e fs, conn.distinctYears = .error e →
      run_quality_checks conn startY endY skp = .ok fs →
      (⟨"missing_race_years", "error: " ++ e, "query_success"⟩ : Failure) ∈ fs) ∧
    (∀ e fs, conn.missingResults = .error e →
      run_quality_checks conn startY endY skp = .ok fs →
      (⟨"races_missing_results", "error: " ++ e, "query_success"⟩ : Failure) ∈ fs) ∧
    (∀ e fs, conn.missingQualifying = .error e →
      run_quality_checks conn startY endY skp = .ok fs →
      (⟨"races_missing_qualifying", "error: " ++ e, "query_success"⟩ : Failure) ∈ fs) := by
  have hrun : run_quality_checks conn startY endY skp = .ok (base
      ++ missing_years_failures conn.distinctYears startY endY
      ++ missing_results_failures conn.missingResults
          (((skp.getD []).find? (fun kv => kv.1 == "results")).map (fun kv => kv.2))
      ++ missing_qualifying_failures conn.missingQualifying
          (((skp.getD []).find? (fun kv => kv.1 == "qualifying")).map (fun kv => kv.2))) := by
    unfold run_quality_checks
    rw [h]
    rfl
  refine ⟨hrun, ?_, ?_, ?_⟩
  · intro e fs he hfs
    rw [hrun] at hfs
    cases hfs
    have : missing_years_failures conn.distinctYears startY endY =
        [⟨"missing_race_years", "error: " ++ e, "query_success"⟩] := by
      rw [he]; rfl
    rw [this]
    simp
  · intro e fs he hfs
    rw [hrun] at hfs
    cases hfs
    have : missing_results_failures conn.missingResults
        (((skp.getD []).find? (fun kv => kv.1 == "results")).map (fun kv => kv.2)) =
        [⟨"races_missing_results", "error: " ++ e, "query_success"⟩] := by
      rw [he]; rfl
    rw [this]
    simp
  · intro e fs he hfs
    rw [hrun] at hfs
    cases hfs
    have : missing_qualifying_failures conn.missingQualifying
        (((skp.getD []).find? (fun kv => kv.1 == "qualifying")).map (fun kv => kv.2)) =
        [⟨"races_missing_qualifying", "error: " ++ e, "query_success"⟩] := by
      rw [he]; rfl
    rw [this]
    simp

/-- A store whose scalar queries all succeed (returning 0) and whose three
aggregate queries all raise. -/
def aggregate_error_conn : QGConn where
  scalar := fun _ => .ok 0
  distinctYears := .error "ey"
  missingResults := .error "er"
  missingQualifying := .error "eq"

theorem aggregate_check_errors_recorded_witness :
    (run_battery aggregate_error_conn.scalar =
      .ok [⟨"results_non_empty", "0", "> 0"⟩, ⟨"drivers_non_empty", "0", "> 0"⟩,
        ⟨"races_non_empty", "0", "> 0"⟩]) ∧
    (run_quality_checks aggregate_error_conn 2024 2024 none =
      .ok ([⟨"results_non_empty", "0", "> 0"⟩, ⟨"drivers_non_empty", "0", "> 0"⟩,
          ⟨"races_non_empty", "0", "> 0"⟩]
        ++ missing_years_failures aggregate_error_conn.distinctYears 2024 2024
        ++ missing_results_failures aggregate_error_conn.missingResults
            ((((none : Option (List (String × List (String × List Int)))).getD []).find?
              (fun kv => kv.1 == "results")).map (fun kv => kv.2))
        ++ missing_qualifying_failures aggregate_error_conn.missingQualifying
            ((((none : Option (List (String × List (String × List Int)))).getD []).find?
              (fun kv => kv.1 == "qualifying")).map (fun kv => kv.2)))) :=
  ⟨by rfl,
    (aggregate_check_errors_recorded aggregate_error_conn 2024 2024 none
      [⟨"results_non_empty", "0", "> 0"⟩, ⟨"drivers_non_empty", "0", "> 0"⟩,
        ⟨"races_non_empty", "0", "> 0"⟩] (by rfl)).1⟩

theorem pyGet_map_natToStr (f : ℕ → PyVal) (y : ℕ) :
    ∀ ys : List ℕ, pyGet (ys.map (fun x => (natToStr x, f x))) (natToStr y) =
      if y ∈ ys then some (f y) else none := by
  intro ys
  induction ys with
  | nil => simp [pyGet]
  | cons x t ih =>
      by_cases h : x = y
      · subst h
        simp [pyGet, List.find?_cons_of_pos]
      · have hne : (natToStr x == natToStr y) = false := by
          simp only [beq_eq_false_iff_ne, ne_eq]
          intro hc
          exact h (natToStr_injective hc)
        simp only [List.map_cons, pyGet, List.find?_cons, hne]
        simp only [pyGet] at ih
        rw [ih]
        simp [Ne.symm h, h]

theorem cleanRounds_map_int : ∀ l : List Int, cleanRounds (.list (l.map .int)) = l := by
  intro l
  induction l with
  | nil => rfl
  | cons a t ih =>
      show a :: ((t.map PyVal.int).foldr _ []) = a :: t
      have : ((t.map PyVal.int).foldr
          (fun v acc =>
            match v with
            | .int n => n :: acc
            | .str s => if strIsDigit s then ((natOfDigits (s.data.map charToDigit) : Int) :: acc) else acc
            | _ => acc) []) = t := ih
      rw [this]

theorem payload_rounds_normalize_years (data : PyVal) (s e y : ℕ) :
    payload_rounds (normalize_progress data s e) "years" y =
      if y ∈ year_list s e
      then sortedDedup (cleanRounds ((pyGet (data_years_of data) (natToStr y)).getD (.list [])))
      else [] := by
  show cleanRounds ((pyGet ((year_list s e).map (norm_entry (data_years_of data))) (natToStr y)).getD
      (.list [])) = _
  have hmap : (year_list s e).map (norm_entry (data_years_of data)) =
      (year_list s e).map (fun x => (natToStr x,
        PyVal.list ((sortedDedup (cleanRounds ((pyGet (data_years_of data) (natToStr x)).getD
          (.list [])))).map PyVal.int))) := rfl
  rw [hmap, pyGet_map_natToStr]
  by_cases h : y ∈ year_list s e
  · rw [if_pos h, if_pos h]
    show cleanRounds (.list ((sortedDedup (cleanRounds ((pyGet (data_years_of data)
      (natToStr y)).getD (.list [])))).map PyVal.int)) = _
    rw [cleanRounds_map_int]
  · rw [if_neg h, if_neg h]
    rfl

theorem payload_rounds_normalize_skipped (data : PyVal) (s e y : ℕ) :
    payload_rounds (normalize_progress data s e) "skipped" y =
      if y ∈ year_list s e
      then sortedDedup (cleanRounds ((pyGet (data_skipped_of data) (natToStr y)).getD (.list [])))
      else [] := by
  show cleanRounds ((pyGet ((year_list s e).map (norm_entry (data_skipped_of data))) (natToStr y)).getD
      (.list [])) = _
  have hmap : (year_list s e).map (norm_entry (data_skipped_of data)) =
      (year_list s e).map (fun x => (natToStr x,
        PyVal.list ((sortedDedup (cleanRounds ((pyGet (data_skipped_of data) (natToStr x)).getD
          (.list [])))).map PyVal.int))) := rfl
  rw [hmap, pyGet_map_natToStr]
  by_cases h : y ∈ year_list s e
  · rw [if_pos h, if_pos h]
    show cleanRounds (.list ((sortedDedup (cleanRounds ((pyGet (data_skipped_of data)
      (natToStr y)).getD (.list [])))).map PyVal.int)) = _
    rw [cleanRounds_map_int]
  · rw [if_neg h, if_neg h]
    rfl

/-- A progress file that claims round 3 of 2020 both completed and skipped. -/
def malformed_progress : PyVal :=
  .dict [("years", .dict [("2020", .list [.int 3])]),
         ("skipped", .dict [("2020", .list [.int 3])])]

/-- C6, as stated (refuted): after a save the completed and skipped lists of
each year would always be disjoint, for every input including malformed
loaded files.  `_normalize_progress` sorts and deduplicates each list
separately but never removes a round present in both, so saving a progress
mapping that lists round 3 of 2020 as completed and as skipped persists 3 in
both lists. -/
theorem c6_counterexample :
    (3 : Int) ∈ payload_rounds (save_progress_payload malformed_progress 2020 2020) "years" 2020 ∧
    (3 : Int) ∈ payload_rounds (save_progress_payload malformed_progress 2020 2020) "skipped" 2020 := by
  decide

/-- C6, amended: after every successful save each persisted round list is
sorted and duplicate-free, and for every year the persisted completed and
skipped lists are disjoint whenever the cleaned input lists for that year
are disjoint — but normalization does not enforce disjointness on inputs
(e.g. malformed loaded files) that list a round in both mappings. -/
theorem progress_save_sorted_nodup_disjoint (data : PyVal) (s e y : ℕ) :
    (payload_rounds (save_progress_payload data s e) "years" y).Sorted (· < ·) ∧
    (payload_rounds (save_progress_payload data s e) "years" y).Nodup ∧
    (payload_rounds (save_progress_payload data s e) "skipped" y).Sorted (· < ·) ∧
    (payload_rounds (save_progress_payload data s e) "skipped" y).Nodup ∧
    (List.Disjoint (cleanRounds ((pyGet (data_years_of data) (natToStr y)).getD (.list [])))
        (cleanRounds ((pyGet (data_skipped_of data) (natToStr y)).getD (.list []))) →
      List.Disjoint (payload_rounds (save_progress_payload data s e) "years" y)
        (payload_rounds (save_progress_payload data s e) "skipped" y)) := by
  unfold save_progress_payload
  rw [payload_rounds_normalize_years, payload_rounds_normalize_skipped]
  by_cases h : y ∈ year_list s e
  · rw [if_pos h, if_pos h]
    refine ⟨sortedDedup_sorted _, sortedDedup_nodup _, sortedDedup_sorted _,
      sortedDedup_nodup _, ?_⟩
    intro hdisj a ha ha'
    exact hdisj ((mem_sortedDedup a _).mp ha) ((mem_sortedDedup a _).mp ha')
  · rw [if_neg h, if_neg h]
    exact ⟨List.sorted_nil, List.nodup_nil, List.sorted_nil, List.nodup_nil,
      fun _ => List.disjoint_nil_left _⟩

theorem progress_save_sorted_nodup_disjoint_witness :
    (List.Disjoint (cleanRounds ((pyGet (data_years_of PyVal.none) (natToStr 2020)).getD
        (.list [])))
      (cleanRounds ((pyGet (data_skipped_of PyVal.none) (natToStr 2020)).getD (.list [])))) ∧
    List.Disjoint (payload_rounds (save_progress_payload PyVal.none 2020 2020) "years" 2020)
      (payload_rounds (save_progress_payload PyVal.none 2020 2020) "skipped" 2020) :=
  have hd : List.Disjoint
      (cleanRounds ((pyGet (data_years_of PyVal.none) (natToStr 2020)).getD (.list [])))
      (cleanRounds ((pyGet (data_skipped_of PyVal.none) (natToStr 2020)).getD (.list []))) :=
    fun a ha _ => absurd ha (List.not_mem_nil a)
  ⟨hd, (progress_save_sorted_nodup_disjoint PyVal.none 2020 2020 2020).2.2.2.2 hd⟩

/-- C10: `_normalize_progress` is idempotent — normalizing an
already-normalized progress value with the same year range returns it
unchanged, for every input value and every range with `start ≤ end`. -/
theorem normalize_progress_idempotent (data : PyVal) (s e : ℕ) (h : s ≤ e) :
    normalize_progress (normalize_progress data s e) s e = normalize_progress data s e := by
  have hyears : data_years_of (normalize_progress data s e) =
      (year_list s e).map (norm_entry (data_years_of data)) := rfl
  have hskipped : data_skipped_of (normalize_progress data s e) =
      (year_list s e).map (norm_entry (data_skipped_of data)) := rfl
  show PyVal.dict
      [("years", .dict ((year_list s e).map (norm_entry (data_years_of (normalize_progress data s e))))),
       ("skipped", .dict ((year_list s e).map (norm_entry (data_skipped_of (normalize_progress data s e)))))]
    = _
  rw [hyears, hskipped]
  have hcongr : ∀ src : List (String × PyVal), ∀ y ∈ year_list s e,
      norm_entry ((year_list s e).map (norm_entry src)) y = norm_entry src y := by
    intro src y hy
    have hhit : pyGet ((year_list s e).map (norm_entry src)) (natToStr y) =
        some (PyVal.list ((sortedDedup (cleanRounds ((pyGet src (natToStr y)).getD
          (.list [])))).map PyVal.int)) := by
      have h2 := pyGet_map_natToStr (fun x => PyVal.list ((sortedDedup (cleanRounds
        ((pyGet src (natToStr x)).getD (.list [])))).map PyVal.int)) y (year_list s e)
      rw [if_pos hy] at h2
      exact h2
    show (natToStr y, PyVal.list ((sortedDedup (cleanRounds
        ((pyGet ((year_list s e).map (norm_entry src)) (natToStr y)).getD
          (.list [])))).map PyVal.int)) = norm_entry src y
    rw [hhit]
    simp only [Option.getD_some]
    rw [cleanRounds_map_int, sortedDedup_idem]
    rfl
  rw [List.map_congr_left (hcongr (data_years_of data)),
    List.map_congr_left (hcongr (data_skipped_of data))]
  rfl

theorem normalize_progress_idempotent_witness :
    2020 ≤ 2021 ∧
    normalize_progress (normalize_progress malformed_progress 2020 2021) 2020 2021 =
      normalize_progress malformed_progress 2020 2021 :=
  ⟨by omega, normalize_progress_idempotent malformed_progress 2020 2021 (by omega)⟩

/-! ### Lemmas about the `extract_results` run -/

theorem process_round_prog_other (fetch : ℕ → ℕ → Option (List (List ℕ))) (y : ℕ)
    (done : List ℕ) (r : ℕ) (s : ExtState) (y' : ℕ) (hy : y' ≠ y) :
    lookupD (process_round fetch y done r s).prog.years y' = lookupD s.prog.years y' ∧
    lookupD (process_round fetch y done r s).prog.skipped y' = lookupD s.prog.skipped y' := by
  unfold process_round
  by_cases hd : r ∈ done
  · rw [if_pos hd]; exact ⟨rfl, rfl⟩
  · rw [if_neg hd]
    cases hf : fetch y r with
    | none => exact ⟨rfl, lookupD_setA_ne y y' _ hy _⟩
    | some races =>
        cases races with
        | nil => exact ⟨rfl, lookupD_setA_ne y y' _ hy _⟩
        | cons a t => exact ⟨lookupD_setA_ne y y' _ hy _, rfl⟩

theorem foldl_process_prog_other (fetch : ℕ → ℕ → Option (List (List ℕ))) (y : ℕ)
    (done : List ℕ) (y' : ℕ) (hy : y' ≠ y) :
    ∀ (rounds : List ℕ) (s : ExtState),
      lookupD ((rounds.foldl (fun st r => process_round fetch y done r st) s)).prog.years y' =
        lookupD s.prog.years y' ∧
      lookupD ((rounds.foldl (fun st r => process_round fetch y done r st) s)).prog.skipped y' =
        lookupD s.prog.skipped y' := by
  intro rounds
  induction rounds with
  | nil => intro s; exact ⟨rfl, rfl⟩
  | cons r t ih =>
      intro s
      have h1 := process_round_prog_other fetch y done r s y' hy
      have h2 := ih (process_round fetch y done r s)
      simp only [List.foldl_cons]
      exact ⟨h2.1.trans h1.1, h2.2.trans h1.2⟩

theorem extract_year_prog_other (fetch : ℕ → ℕ → Option (List (List ℕ))) (y : ℕ)
    (rounds : List ℕ) (s : ExtState) (y' : ℕ) (hy : y' ≠ y) :
    lookupD (extract_year fetch y rounds s).prog.years y' = lookupD s.prog.years y' ∧
    lookupD (extract_year fetch y rounds s).prog.skipped y' = lookupD s.prog.skipped y' :=
  foldl_process_prog_other fetch y _ y' hy rounds s

theorem process_round_empty_done (fetch : ℕ → ℕ → Option (List (List ℕ))) (y r : ℕ)
    (s : ExtState) :
    (process_round fetch y [] r s).attempted = s.attempted ++ [(y, r)] ∧
    (process_round fetch y [] r s).mem = s.mem ++ rows_of fetch y r := by
  unfold process_round rows_of
  rw [if_neg (List.not_mem_nil r)]
  cases hf : fetch y r with
  | none => exact ⟨rfl, (List.append_nil s.mem).symm⟩
  | some races =>
      cases races with
      | nil => exact ⟨rfl, (List.append_nil s.mem).symm⟩
      | cons a t => exact ⟨rfl, rfl⟩

theorem foldl_process_empty_done (fetch : ℕ → ℕ → Option (List (List ℕ))) (y : ℕ) :
    ∀ (rounds : List ℕ) (s : ExtState),
      ((rounds.foldl (fun st r => process_round fetch y [] r st) s)).attempted =
        s.attempted ++ rounds.map (fun r => (y, r)) ∧
      ((rounds.foldl (fun st r => process_round fetch y [] r st) s)).mem =
        s.mem ++ (rounds.map (rows_of fetch y)).flatten := by
  intro rounds
  induction rounds with
  | nil => intro s; exact ⟨(List.append_nil _).symm, (List.append_nil _).symm⟩
  | cons r t ih =>
      intro s
      have h1 := process_round_empty_done fetch y r s
      have h2 := ih (process_round fetch y [] r s)
      simp only [List.foldl_cons]
      constructor
      · rw [h2.1, h1.1, List.map_cons, List.append_assoc]
        rfl
      · rw [h2.2, h1.2, List.map_cons, List.flatten_cons, List.append_assoc]

theorem extract_year_fresh (fetch : ℕ → ℕ → Option (List (List ℕ))) (y : ℕ)
    (rounds : List ℕ) (s : ExtState)
    (hy1 : lookupD s.prog.years y = []) (hy2 : lookupD s.prog.skipped y = []) :
    (extract_year fetch y rounds s).attempted = s.attempted ++ rounds.map (fun r => (y, r)) ∧
    (extract_year fetch y rounds s).mem = s.mem ++ (rounds.map (rows_of fetch y)).flatten := by
  unfold extract_year
  rw [hy1, hy2]
  exact foldl_process_empty_done fetch y rounds s

theorem foldl_extract_years (fetch : ℕ → ℕ → Option (List (List ℕ)))
    (rby : List (ℕ × List ℕ)) :
    ∀ (ys : List ℕ) (s : ExtState), ys.Nodup →
      (∀ y ∈ ys, lookupD s.prog.years y = [] ∧ lookupD s.prog.skipped y = []) →
      ((ys.foldl (fun st y => extract_year fetch y (rounds_for rby y) st) s)).attempted =
        s.attempted ++ (ys.map (fun y => (rounds_for rby y).map (fun r => (y, r)))).flatten ∧
      ((ys.foldl (fun st y => extract_year fetch y (rounds_for rby y) st) s)).mem =
        s.mem ++ (ys.map (fun y => ((rounds_for rby y).map (rows_of fetch y)).flatten)).flatten := by
  intro ys
  induction ys with
  | nil => intro s _ _; exact ⟨(List.append_nil _).symm, (List.append_nil _).symm⟩
  | cons y t ih =>
      intro s hnd hfresh
      have hy := hfresh y (List.mem_cons_self y t)
      have h1 := extract_year_fresh fetch y (rounds_for rby y) s hy.1 hy.2
      have hndt := (List.nodup_cons.mp hnd)
      have hfresh' : ∀ y' ∈ t,
          lookupD (extract_year fetch y (rounds_for rby y) s).prog.years y' = [] ∧
          lookupD (extract_year fetch y (rounds_for rby y) s).prog.skipped y' = [] := by
        intro y' hy'
        have hne : y' ≠ y := by
          intro hc; exact hndt.1 (hc ▸ hy')
        have hp := extract_year_prog_other fetch y (rounds_for rby y) s y' hne
        have hf := hfresh y' (List.mem_cons_of_mem y hy')
        exact ⟨hp.1.trans hf.1, hp.2.trans hf.2⟩
      have h2 := ih (extract_year fetch y (rounds_for rby y) s) hndt.2 hfresh'
      simp only [List.foldl_cons]
      constructor
      · rw [h2.1, h1.1, List.map_cons, List.flatten_cons, List.append_assoc]
      · rw [h2.2, h1.2, List.map_cons, List.flatten_cons, List.append_assoc]

theorem run_extract_results_from_reset (fetch : ℕ → ℕ → Option (List (List ℕ)))
    (startY endY : ℕ) (rby : List (ℕ × List ℕ)) (loaded : Progress) (outFile : Option OutFile)
    (hreset : reset_progress outFile (races_count rby startY endY) loaded = emptyProgress) :
    (run_extract_results fetch startY endY rby loaded outFile).1.attempted =
      schedule startY endY rby ∧
    (run_extract_results fetch startY endY rby loaded outFile).1.mem =
      schedule_rows fetch startY endY rby ∧
    (run_extract_results fetch startY endY rby loaded outFile).2 =
      some { size := 10 + (schedule_rows fetch startY endY rby).length,
             dataRows := schedule_rows fetch startY endY rby } := by
  unfold run_extract_results
  rw [hreset]
  dsimp only
  have hnd : (year_list startY endY).Nodup := by
    unfold year_list
    exact List.nodup_range' startY (endY + 1 - startY)
  have hfresh : ∀ y ∈ year_list startY endY,
      lookupD (emptyProgress.years) y = [] ∧ lookupD (emptyProgress.skipped) y = [] :=
    fun y _ => ⟨rfl, rfl⟩
  have h := foldl_extract_years fetch rby (year_list startY endY)
    { mem := [], prog := emptyProgress, progressFile := loaded, attempted := [] } hnd hfresh
  have ha : ((year_list startY endY).foldl
      (fun st y => extract_year fetch y (rounds_for rby y) st)
      { mem := [], prog := emptyProgress, progressFile := loaded, attempted := [] }).attempted =
      schedule startY endY rby := by
    rw [h.1]; rfl
  have hm : ((year_list startY endY).foldl
      (fun st y => extract_year fetch y (rounds_for rby y) st)
      { mem := [], prog := emptyProgress, progressFile := loaded, attempted := [] }).mem =
      schedule_rows fetch startY endY rby := by
    rw [h.2]; rfl
  exact ⟨ha, hm, by rw [hm]⟩

theorem mem_schedule (startY endY : ℕ) (rby : List (ℕ × List ℕ)) (y r : ℕ)
    (h3 : y ∈ year_list startY endY) (h4 : r ∈ rounds_for rby y) :
    (y, r) ∈ schedule startY endY rby := by
  unfold schedule
  rw [List.mem_flatten]
  exact ⟨(rounds_for rby y).map (fun r => (y, r)),
    List.mem_map_of_mem _ h3, List.mem_map_of_mem _ h4⟩

/-- Fetch returning one race with one row per unit, for the kill scenario. -/
def kill_fetch : ℕ → ℕ → Option (List (List ℕ)) := fun y r => some [[100 * y + r]]

/-- C2, as stated (refuted): after a kill, every unit recorded as done would
have its rows durably in the output file, and the next invocation would
re-do at most the one in-flight unit.  In a fresh run over rounds 1-2 of
2024 killed right after round 1 completed: the progress file records round 1
done, but the output file was never written (rows live only in `all_results`
memory until the final write) — and the next invocation, whose health check
sees the missing output, re-extracts the completed unit `(2024, 1)` as well,
not just the in-flight one. -/
theorem c2_counterexample :
    (1 ∈ lookupD (run_killed kill_fetch 2024 2024 [(2024, [1, 2])] emptyProgress
      none 0 1).1.progressFile.years 2024) ∧
    (run_killed kill_fetch 2024 2024 [(2024, [1, 2])] emptyProgress none 0 1).2 = none ∧
    ((2024, 1) ∈ (run_extract_results kill_fetch 2024 2024 [(2024, [1, 2])]
      (run_killed kill_fetch 2024 2024 [(2024, [1, 2])] emptyProgress none 0 1).1.progressFile
      none).1.attempted) := by
  decide

/-- C2, amended: a kill never corrupts on-disk state (progress and output are
each published atomically), but rows are buffered in memory and written only
at the end of the run, so rounds recorded done are not yet in the output
file; the next invocation over the resulting missing/unhealthy output
discards the loaded progress entirely and re-extracts every scheduled unit —
not at most the in-flight one — and its final atomic write contains the rows
of every unit with data. -/
theorem resume_after_kill_reextracts_all (fetch : ℕ → ℕ → Option (List (List ℕ)))
    (startY endY : ℕ) (rby : List (ℕ × List ℕ)) (loaded : Progress) :
    (run_extract_results fetch startY endY rby loaded none).1.attempted =
      schedule startY endY rby ∧
    (run_extract_results fetch startY endY rby loaded none).2 =
      some { size := 10 + (schedule_rows fetch startY endY rby).length,
             dataRows := schedule_rows fetch startY endY rby } := by
  have h := run_extract_results_from_reset fetch startY endY rby loaded none rfl
  exact ⟨h.1, h.2.2⟩

/-- C4: if the loaded progress records round `r` of year `y` as done but the
output file is missing, below the 10-byte threshold, or has no data row
beyond the header, the next `extract_results` run discards the loaded
progress (treating it as empty) and re-extracts that unit (its fetch is
issued) rather than skipping it. -/
theorem health_check_overrides_progress (fetch : ℕ → ℕ → Option (List (List ℕ)))
    (startY endY : ℕ) (rby : List (ℕ × List ℕ)) (loaded : Progress)
    (outFile : Option OutFile) (y r : ℕ)
    (h1 : r ∈ lookupD loaded.years y)
    (h2 : output_file_empty outFile = true ∨ output_has_rows outFile = false)
    (h3 : y ∈ year_list startY endY) (h4 : r ∈ rounds_for rby y) :
    reset_progress outFile (races_count rby startY endY) loaded = emptyProgress ∧
    (y, r) ∈ (run_extract_results fetch startY endY rby loaded outFile).1.attempted := by
  have hreset : reset_progress outFile (races_count rby startY endY) loaded = emptyProgress := by
    unfold reset_progress
    rcases h2 with h2 | h2
    · rw [h2]; simp
    · rw [h2]; simp
  have h := run_extract_results_from_reset fetch startY endY rby loaded outFile hreset
  refine ⟨hreset, ?_⟩
  rw [h.1]
  exact mem_schedule startY endY rby y r h3 h4

theorem health_check_overrides_progress_witness :
    ((1 ∈ lookupD ({ years := [(2024, [1])], skipped := [] } : Progress).years 2024) ∧
      (output_file_empty (some { size := 50, dataRows := [] }) = true ∨
        output_has_rows (some { size := 50, dataRows := [] }) = false) ∧
      (2024 ∈ year_list 2024 2024) ∧ (1 ∈ rounds_for [(2024, [1])] 2024)) ∧
    (reset_progress (some { size := 50, dataRows := [] })
        (races_count [(2024, [1])] 2024 2024) { years := [(2024, [1])], skipped := [] } =
      emptyProgress ∧
      (2024, 1) ∈ (run_extract_results (fun _ _ => none) 2024 2024 [(2024, [1])]
        { years := [(2024, [1])], skipped := [] }
        (some { size := 50, dataRows := [] })).1.attempted) :=
  ⟨⟨by decide, Or.inr (by decide), by decide, by decide⟩,
    health_check_overrides_progress (fun _ _ => none) 2024 2024 [(2024, [1])]
      { years := [(2024, [1])], skipped := [] } (some { size := 50, dataRows := [] }) 2024 1
      (by decide) (Or.inr (by decide)) (by decide) (by decide)⟩

end F1
